import Mathlib

/-!
A verification development for the "Daily Rhythm" reminder scheduler
(`src/app/src/app/page.tsx`).  The JavaScript/TypeScript source is shallowly
embedded: strings stay strings, JS `Number(...)` is modelled as `Option Int`
(`none` = NaN) over the integer-numeral fragment that date/time inputs use,
and a JS `Date` value is `Option Int` (milliseconds since the epoch, `none` =
Invalid Date).  Local wall-clock time is identified with UTC: the program
never mixes timezones, so the constant offset is irrelevant to every ordering
and comparison fact proved below.
-/

namespace DailyRhythm

/-! ### JS string / number primitives -/

/-- JS `s.split(sep)` for a single-character separator, on the character list
of the string; `"".split(sep)` is `[""]`. -/
def jsSplit (sep : Char) : List Char → List (List Char)
  | [] => [[]]
  | a :: rest =>
    let r := jsSplit sep rest
    if a == sep then [] :: r
    else
      match r with
      | [] => [[a]]
      | g :: gs => (a :: g) :: gs

def trimSpaces (s : List Char) : List Char :=
  ((s.dropWhile (· == ' ')).reverse.dropWhile (· == ' ')).reverse

def digitsToNat (s : List Char) : Nat :=
  s.foldl (fun n c => n * 10 + (c.toNat - '0'.toNat)) 0

/-- JS `Number(str)` on the fragment relevant to date/time fields: the empty
(or all-space) string is `0`, an optionally signed run of decimal digits is
its value, anything else is NaN (`none`).  Fractional, hex and exponent
numerals never occur in `YYYY-MM-DD` / `HH:MM` parts and are out of scope. -/
def jsNumber (s : List Char) : Option Int :=
  let t := trimSpaces s
  if t.isEmpty then some 0
  else
    match t with
    | '-' :: rest =>
      if rest ≠ [] ∧ rest.all Char.isDigit then some (-(digitsToNat rest : Int)) else none
    | '+' :: rest =>
      if rest ≠ [] ∧ rest.all Char.isDigit then some ((digitsToNat rest : Int)) else none
    | _ => if t.all Char.isDigit then some ((digitsToNat t : Int)) else none

/-! ### JS Date construction -/

/-- Days since 1970-01-01 of a proleptic Gregorian date (civil-days
algorithm); `m` is 1-based and must lie in `1..12`, `d` is 1-based. -/
def daysFromCivil (y m d : Int) : Int :=
  let y1 := if m ≤ 2 then y - 1 else y
  let era := Int.fdiv y1 400
  let yoe := y1 - era * 400
  let mp := if 2 < m then m - 3 else m + 9
  let doy := (153 * mp + 2) / 5 + d - 1
  let doe := yoe * 365 + yoe / 4 - yoe / 100 + doy
  era * 146097 + doe - 719468

/-- JS `new Date(year, monthIndex, day, hours, minutes, 0, 0).getTime()`:
the 0..99 → 1900+year rule, month overflow rolling into years, day/time
overflow rolling forward, and the ±8.64e15 ms TimeClip (`none` = Invalid
Date beyond it). -/
def jsMakeDate (year monthIndex day hours minutes : Int) : Option Int :=
  let yr := if 0 ≤ year ∧ year ≤ 99 then 1900 + year else year
  let ym := yr + Int.fdiv monthIndex 12
  let mn := Int.emod monthIndex 12
  let days := daysFromCivil ym (mn + 1) 1 + day - 1
  let ms := days * 86400000 + hours * 3600000 + minutes * 60000
  if ms.natAbs ≤ 8640000000000000 then some ms else none

/-- Models `const [hours = "00", minutes = "00"] = time.split(":")` followed by
`Number(hours)`, `Number(minutes)`. -/
def parseTimeHM (time : String) : Option Int × Option Int :=
  let parts := jsSplit ':' time.data
  (jsNumber (parts.getD 0 ['0', '0']), jsNumber (parts.getD 1 ['0', '0']))

/-- Models `const [year, month, day] = date.split("-").map(Number)` with the
`month ?? 1` / `day ?? 1` defaults applied to *absent* (undefined) parts;
a present but non-numeric part stays NaN. -/
def parseDateYMD (date : String) : Option Int × Option Int × Option Int :=
  let parts := jsSplit '-' date.data
  let year := jsNumber (parts.getD 0 [])
  let month := match parts[1]? with
    | none => some 1
    | some s => jsNumber s
  let day := match parts[2]? with
    | none => some 1
    | some s => jsNumber s
  (year, month, day)

def mkInstant (dp : Option Int × Option Int × Option Int)
    (tp : Option Int × Option Int) : Option Int :=
  match dp, tp with
  | (some y, some mo, some d), (some h, some mi) => jsMakeDate y (mo - 1) d h mi
  | _, _ => none

/-- The source's `combineDateTime`: build a `Date` from a date string and
a time string; any NaN component makes the result Invalid (`none`). -/
def combineDateTime (date time : String) : Option Int :=
  mkInstant (parseDateYMD date) (parseTimeHM time)

/-! ### Formatting helpers used by the alert message -/

def pad2 (n : Nat) : String :=
  if n < 10 then "0" ++ toString n else toString n

/-- The source's `formatTimeLabel`: the locale-dependent `toLocaleTimeString` rendering is
abstracted to a fixed 24-hour `HH:MM`; an Invalid Date prints as JS does. -/
def formatTimeLabel (ms? : Option Int) : String :=
  match ms? with
  | none => "Invalid Date"
  | some ms =>
    let minutes := Int.fdiv ms 60000
    pad2 ((Int.fdiv minutes 60).emod 24).toNat ++ ":" ++ pad2 (minutes.emod 60).toNat

def jsPadStart2 (s : List Char) : List Char :=
  if 2 ≤ s.length then s else if s.length = 1 then '0' :: s else ['0', '0']

/-- The source's `normalizeTimeValue`. -/
def normalizeTimeValue (v : String) : String :=
  if v = "" then ""
  else
    let parts := jsSplit ':' v.data
    ⟨jsPadStart2 (parts.getD 0 ['0', '0'])⟩ ++ ":" ++ ⟨jsPadStart2 (parts.getD 1 ['0', '0'])⟩

/-! ### Data model -/

structure Task where
  id : String
  title : String
  description : String
  date : String
  time : String
  remindBefore : Nat
  completed : Bool
  notified : Bool
deriving DecidableEq

structure Alert where
  id : Nat
  taskId : String
  message : String
  scheduledAt : Option Int
deriving DecidableEq

/-- The absolute start instant of a task. -/
def taskKey (t : Task) : Option Int :=
  combineDateTime t.date t.time

/-- The comparator of `sortTasks` (`combine(a).getTime() - combine(b).getTime()`)
as a boolean "does not need to swap" relation; a NaN comparator value is
treated as `0` by `Array.prototype.sort`, rendered here as `true`. -/
def taskBle (a b : Task) : Bool :=
  match taskKey a, taskKey b with
  | some x, some y => decide (x ≤ y)
  | _, _ => true

def taskLE (a b : Task) : Prop := taskBle a b = true

instance : DecidableRel taskLE := fun a b =>
  inferInstanceAs (Decidable (taskBle a b = true))

/-- The source's `sortTasks`: `Array.prototype.sort` is required to be stable (ES2019);
for the consistent comparators that arise from valid instants every stable
sort agrees, realized here as insertion sort. -/
def sortTasks (l : List Task) : List Task :=
  List.insertionSort taskLE l

/-! ### Alert channel -/

/-- The message template of `triggerNotification`; `task.remindBefore ?` is
JS truthiness, so `0` produces no suffix. -/
def mkMessage (t : Task) : String :=
  t.title ++ " starts at " ++ formatTimeLabel (taskKey t) ++
    (if t.remindBefore ≠ 0 then " (notified " ++ toString t.remindBefore ++ " min early)"
     else "")

/-- The `setAlerts` transform inside `triggerNotification`: append a new
alert unless one with the same `taskId` is already live.  `createId()` is a
fresh-identifier supply, modelled by the numeric id `fresh` handed in by the
caller; `scheduledAt` records the task's start instant. -/
def emitAlert (t : Task) (fresh : Nat) (al : List Alert) : List Alert :=
  if al.any (fun a => a.taskId == t.id) then al
  else al ++ [{ id := fresh, taskId := t.id, message := mkMessage t, scheduledAt := taskKey t }]

/-- The source's `acknowledgeAlert`: drop the alert with the given id. -/
def acknowledgeAlert (alertId : Nat) (al : List Alert) : List Alert :=
  al.filter (fun a => !(a.id == alertId))

/-! ### Scheduling engine -/

/-- Models `scheduled.getTime() - task.remindBefore * 60 * 1000`; `none` when the
start instant is Invalid (NaN arithmetic). -/
def triggerOf (t : Task) : Option Int :=
  (taskKey t).map (fun s => s - (t.remindBefore : Int) * 60000)

/-- Models `nowTime >= triggerTime`; a comparison against NaN is false in JS. -/
def qualifiesTime (now : Int) (t : Task) : Bool :=
  match triggerOf t with
  | some tr => decide (tr ≤ now)
  | none => false

structure EngineState where
  tasks : List Task
  alerts : List Alert
  nextId : Nat
deriving DecidableEq

structure TickRes where
  tasks : List Task
  alerts : List Alert
  nextId : Nat
  touched : Bool
deriving DecidableEq

/-- The body of the 30-second interval callback: walk the task list in order;
skip completed or already-notified tasks; for a task whose trigger instant
has passed, emit an alert (deduplicated by `taskId`) and set `notified`.
The OS-notification and chime side effects carry no engine state. -/
def runTick (now : Int) : List Task → List Alert → Nat → TickRes
  | [], al, nid => ⟨[], al, nid, false⟩
  | t :: rest, al, nid =>
    if t.completed || t.notified then
      let r := runTick now rest al nid
      ⟨t :: r.tasks, r.alerts, r.nextId, r.touched⟩
    else if qualifiesTime now t then
      let r := runTick now rest (emitAlert t nid al) (nid + 1)
      ⟨{ t with notified := true } :: r.tasks, r.alerts, r.nextId, true⟩
    else
      let r := runTick now rest al nid
      ⟨t :: r.tasks, r.alerts, r.nextId, r.touched⟩

/-- One evaluation tick: `return touched ? sortTasks(next) : current`. -/
def tick (now : Int) (st : EngineState) : EngineState :=
  let r := runTick now st.tasks st.alerts st.nextId
  ⟨if r.touched then sortTasks r.tasks else st.tasks, r.alerts, r.nextId⟩

/-! ### Task store mutations -/

/-- The update payload `Partial<Omit<Task, "id">>`. -/
structure TaskUpdate where
  title : Option String := none
  description : Option String := none
  date : Option String := none
  time : Option String := none
  remindBefore : Option Nat := none
  completed : Option Bool := none
  notified : Option Bool := none
deriving DecidableEq

/-- JS truthiness of an optional string field: absent and `""` are falsy. -/
def truthyStr : Option String → Bool
  | none => false
  | some s => !(s == "")

/-- Models `{ ...task, ...updates, notified: updates.time || updates.date ? false :
task.notified }`: the spread merges every present field, then the `notified`
key is recomputed from the *original* task, discarding any `notified` the
payload carried. -/
def applyUpdate (t : Task) (u : TaskUpdate) : Task :=
  { id := t.id
    title := u.title.getD t.title
    description := u.description.getD t.description
    date := u.date.getD t.date
    time := u.time.getD t.time
    remindBefore := u.remindBefore.getD t.remindBefore
    completed := u.completed.getD t.completed
    notified := if truthyStr u.time || truthyStr u.date then false else t.notified }

def updMap (taskId : String) (u : TaskUpdate) (t : Task) : Task :=
  if t.id == taskId then applyUpdate t u else t

/-- The source's `handleTaskUpdate`. -/
def handleTaskUpdate (taskId : String) (u : TaskUpdate) (tasks : List Task) : List Task :=
  sortTasks (tasks.map (updMap taskId u))

def compMap (taskId : String) (completed : Bool) (t : Task) : Task :=
  if t.id == taskId then { t with completed := completed } else t

/-- The source's `handleTaskCompletion`. -/
def handleTaskCompletion (taskId : String) (completed : Bool) (tasks : List Task) : List Task :=
  sortTasks (tasks.map (compMap taskId completed))

/-- The source's `handleTaskRemoval`: a plain filter, no re-sort. -/
def handleTaskRemoval (taskId : String) (tasks : List Task) : List Task :=
  tasks.filter (fun t => !(t.id == taskId))

structure FormState where
  title : String
  description : String
  date : String
  time : String
  remindBefore : Nat
deriving DecidableEq

def newTaskOfForm (fresh : String) (f : FormState) : Task :=
  { id := fresh
    title := f.title
    description := f.description
    date := f.date
    time := normalizeTimeValue f.time
    remindBefore := f.remindBefore
    completed := false
    notified := false }

/-- The source's `handleFormSubmit` (trimming of title/description is surface glue and is
left to the form value): bail out on an empty title, date or time, otherwise
append the fresh task and re-sort. -/
def handleFormSubmit (fresh : String) (f : FormState) (tasks : List Task) : List Task :=
  if f.title = "" ∨ f.date = "" ∨ f.time = "" then tasks
  else sortTasks (tasks ++ [newTaskOfForm fresh f])

/-- The source's `templateBlueprint`: (title, time, description, remindBefore). -/
def templateBlueprint : List (String × String × String × Nat) :=
  [("Morning Stretch", "07:00", "Loosen up with a 10 minute stretch routine.", 10),
   ("Focus Block #1", "09:00", "Deep work session on priority project.", 15),
   ("Lunch Break", "12:30", "Step away from the desk and recharge.", 10),
   ("Afternoon Check-in", "15:00", "Review progress and adjust the plan.", 10),
   ("Wrap-up & Plan Tomorrow", "18:00", "Log wins and prep tomorrow's priorities.", 15)]

/-- The blueprint instantiated for a date; `ids` supplies the `createId()`
results. -/
def blueprintFor (date : String) (ids : Nat → String) : List Task :=
  templateBlueprint.enum.map (fun p =>
    { id := ids p.1
      title := p.2.1
      description := p.2.2.2.1
      date := date
      time := p.2.2.1
      remindBefore := p.2.2.2.2
      completed := false
      notified := false })

/-- The `setTasks` transform of `resetTemplateForDay`, with the replacement
list abstracted: drop every task on the given date, append the new ones,
re-sort. -/
def bulkReplaceForDate (date : String) (newTasks : List Task) (prev : List Task) : List Task :=
  sortTasks (prev.filter (fun t => !(t.date == date)) ++ newTasks)

/-- The source's `resetTemplateForDay`. -/
def resetTemplateForDay (date : String) (ids : Nat → String) (prev : List Task) : List Task :=
  bulkReplaceForDate date (blueprintFor date ids) prev

/-! ### Characterizations of the tick -/

/-- A task the tick fires on: not completed, not yet notified, trigger passed. -/
def fireCond (now : Int) (t : Task) : Bool :=
  !(t.completed || t.notified) && qualifiesTime now t

/-- The per-task effect of the tick on the task list. -/
def fireMap (now : Int) (t : Task) : Task :=
  if t.completed || t.notified then t
  else if qualifiesTime now t then { t with notified := true } else t

/-- The alert emissions of one tick, in task order. -/
def emitAll : List Task → List Alert → Nat → List Alert
  | [], al, _ => al
  | t :: rest, al, nid => emitAll rest (emitAlert t nid al) (nid + 1)

theorem fireMap_eq_self (now : Int) (t : Task) (h : fireCond now t = false) :
    fireMap now t = t := by
  unfold fireCond at h
  unfold fireMap
  by_cases h1 : (t.completed || t.notified) = true
  · simp [h1]
  · simp [h1] at h ⊢
    simp [h]

theorem fireMap_id (now : Int) (t : Task) : (fireMap now t).id = t.id := by
  unfold fireMap
  by_cases h1 : (t.completed || t.notified) = true
  · simp [h1]
  · by_cases h2 : qualifiesTime now t = true <;> simp [h1, h2]

theorem runTick_tasks (now : Int) (ts : List Task) (al : List Alert) (nid : Nat) :
    (runTick now ts al nid).tasks = ts.map (fireMap now) := by
  induction ts generalizing al nid with
  | nil => rfl
  | cons t rest ih =>
    by_cases h1 : (t.completed || t.notified) = true
    · simp [runTick, fireMap, h1, ih]
    · by_cases h2 : qualifiesTime now t = true
      · simp [runTick, fireMap, h1, h2, ih]
      · simp [runTick, fireMap, h1, h2, ih]

theorem runTick_alerts (now : Int) (ts : List Task) (al : List Alert) (nid : Nat) :
    (runTick now ts al nid).alerts = emitAll (ts.filter (fireCond now)) al nid := by
  induction ts generalizing al nid with
  | nil => rfl
  | cons t rest ih =>
    by_cases h1 : (t.completed || t.notified) = true
    · simp [runTick, fireCond, h1, ih]
    · by_cases h2 : qualifiesTime now t = true
      · simp [runTick, fireCond, h1, h2, ih, emitAll]
      · simp [runTick, fireCond, h1, h2, ih]

theorem runTick_touched (now : Int) (ts : List Task) (al : List Alert) (nid : Nat) :
    (runTick now ts al nid).touched = ts.any (fireCond now) := by
  induction ts generalizing al nid with
  | nil => rfl
  | cons t rest ih =>
    by_cases h1 : (t.completed || t.notified) = true
    · simp [runTick, fireCond, h1, ih]
    · by_cases h2 : qualifiesTime now t = true
      · simp [runTick, fireCond, h1, h2]
      · simp [runTick, fireCond, h1, h2, ih]

theorem tick_alerts (now : Int) (st : EngineState) :
    (tick now st).alerts = emitAll (st.tasks.filter (fireCond now)) st.alerts st.nextId := by
  simp [tick, runTick_alerts]

theorem map_fireMap_eq_self (now : Int) (ts : List Task)
    (h : ∀ t ∈ ts, fireCond now t = false) : ts.map (fireMap now) = ts := by
  induction ts with
  | nil => rfl
  | cons t rest ih =>
    simp only [List.map_cons, fireMap_eq_self now t (h t (by simp)),
      ih (fun u hu => h u (by simp [hu]))]

theorem tick_tasks_perm (now : Int) (st : EngineState) :
    List.Perm (tick now st).tasks (st.tasks.map (fireMap now)) := by
  unfold tick
  by_cases h : (runTick now st.tasks st.alerts st.nextId).touched = true
  · simp only [h, if_pos]
    rw [runTick_tasks]
    exact List.perm_insertionSort _ _
  · rw [Bool.not_eq_true] at h
    simp only [h, Bool.false_eq_true, if_false]
    have hall : ∀ t ∈ st.tasks, fireCond now t = false := by
      have hany := runTick_touched now st.tasks st.alerts st.nextId
      rw [h] at hany
      intro t ht
      by_contra hc
      have htt : fireCond now t = true := by revert hc; cases fireCond now t <;> simp
      have : st.tasks.any (fireCond now) = true := List.any_eq_true.mpr ⟨t, ht, htt⟩
      rw [← hany] at this
      exact absurd this (by simp)
    rw [map_fireMap_eq_self now st.tasks hall]

theorem tick_map_id_perm (now : Int) (st : EngineState) :
    List.Perm ((tick now st).tasks.map Task.id) (st.tasks.map Task.id) := by
  have h1 := (tick_tasks_perm now st).map Task.id
  rw [List.map_map] at h1
  have h2 : st.tasks.map (Task.id ∘ fireMap now) = st.tasks.map Task.id := by
    induction st.tasks with
    | nil => rfl
    | cons t rest ih => simp [Function.comp, fireMap_id, ih]
  rwa [h2] at h1

/-! ### Counting alerts per task id -/

/-- At most one live alert per `taskId`. -/
def AtMostOne (al : List Alert) : Prop :=
  ∀ x : String, al.countP (fun a => a.taskId == x) ≤ 1

theorem emitAlert_countP_ne (t : Task) (nid : Nat) (al : List Alert) (x : String)
    (h : x ≠ t.id) :
    (emitAlert t nid al).countP (fun a => a.taskId == x)
      = al.countP (fun a => a.taskId == x) := by
  unfold emitAlert
  split
  · rfl
  · rw [List.countP_append]
    have : (t.id == x) = false := beq_eq_false_iff_ne.mpr (Ne.symm h)
    simp [List.countP_cons, this]

theorem emitAlert_countP_zero (t : Task) (nid : Nat) (al : List Alert)
    (h0 : al.countP (fun a => a.taskId == t.id) = 0) :
    (emitAlert t nid al).countP (fun a => a.taskId == t.id) = 1 := by
  unfold emitAlert
  have hany : al.any (fun a => a.taskId == t.id) = false := by
    rw [List.any_eq_false]
    intro a ha
    have := List.countP_eq_zero.mp h0 a ha
    simpa using this
  simp [hany, List.countP_append, List.countP_cons, h0]

theorem emitAll_countP_not_mem (ts : List Task) (al : List Alert) (nid : Nat) (x : String)
    (h : ∀ u ∈ ts, u.id ≠ x) :
    (emitAll ts al nid).countP (fun a => a.taskId == x)
      = al.countP (fun a => a.taskId == x) := by
  induction ts generalizing al nid with
  | nil => rfl
  | cons t rest ih =>
    rw [emitAll, ih _ _ (fun u hu => h u (List.mem_cons_of_mem _ hu))]
    exact emitAlert_countP_ne t nid al x (fun hx => h t (by simp) hx.symm)

theorem emitAll_countP_single (ts : List Task) (al : List Alert) (nid : Nat) (x : String)
    (h0 : al.countP (fun a => a.taskId == x) = 0)
    (h1 : ts.countP (fun u => u.id == x) = 1) :
    (emitAll ts al nid).countP (fun a => a.taskId == x) = 1 := by
  induction ts generalizing al nid with
  | nil => simp [List.countP_nil] at h1
  | cons t rest ih =>
    rw [emitAll]
    rw [List.countP_cons] at h1
    by_cases hx : t.id = x
    · have hrest : rest.countP (fun u => u.id == x) = 0 := by
        have hbeq : (t.id == x) = true := beq_iff_eq.mpr hx
        rw [if_pos hbeq] at h1
        omega
      have hone : (emitAlert t nid al).countP (fun a => a.taskId == x) = 1 := by
        subst hx
        exact emitAlert_countP_zero t nid al h0
      rw [emitAll_countP_not_mem rest _ _ x
        (fun u hu hux => by
          have := List.countP_eq_zero.mp hrest u hu
          simp [hux] at this)]
      exact hone
    · have hkeep : (emitAlert t nid al).countP (fun a => a.taskId == x)
          = al.countP (fun a => a.taskId == x) :=
        emitAlert_countP_ne t nid al x (fun hxx => hx hxx.symm)
      have hrest : rest.countP (fun u => u.id == x) = 1 := by
        have hbeq : (t.id == x) = false := beq_eq_false_iff_ne.mpr hx
        rw [if_neg (by simp [hbeq])] at h1
        omega
      exact ih _ _ (by rw [hkeep]; exact h0) hrest

theorem emitAlert_atMostOne (t : Task) (nid : Nat) (al : List Alert)
    (h : AtMostOne al) : AtMostOne (emitAlert t nid al) := by
  intro x
  unfold emitAlert
  split
  · exact h x
  · rename_i hg
    rw [List.countP_append]
    by_cases hx : t.id = x
    · have hz : al.countP (fun a => a.taskId == x) = 0 := by
        rw [List.countP_eq_zero]
        intro a ha hpa
        apply hg
        apply List.any_eq_true.mpr
        refine ⟨a, ha, ?_⟩
        rw [← hx] at hpa
        exact hpa
      simp [hz, List.countP_cons, hx]
    · have : (t.id == x) = false := beq_eq_false_iff_ne.mpr hx
      simpa [List.countP_cons, this] using h x

theorem acknowledge_atMostOne (aid : Nat) (al : List Alert)
    (h : AtMostOne al) : AtMostOne (acknowledgeAlert aid al) := by
  intro x
  exact le_trans (List.Sublist.countP_le _ (List.filter_sublist al)) (h x)

theorem emitAll_atMostOne (ts : List Task) (al : List Alert) (nid : Nat)
    (h : AtMostOne al) : AtMostOne (emitAll ts al nid) := by
  induction ts generalizing al nid with
  | nil => exact h
  | cons t rest ih => exact ih _ _ (emitAlert_atMostOne t nid al h)

/-! ### Tick helper lemmas -/

theorem fireCond_of_pending (t : Task) (now s : Int)
    (hc : t.completed = false) (hn : t.notified = false)
    (hs : taskKey t = some s) (hle : s - (t.remindBefore : Int) * 60000 ≤ now) :
    fireCond now t = true := by
  simp [fireCond, qualifiesTime, triggerOf, hs, hc, hn, hle]

theorem fireCond_false_of_early (t : Task) (now s : Int)
    (hs : taskKey t = some s) (hlt : now < s - (t.remindBefore : Int) * 60000) :
    fireCond now t = false := by
  have hq : qualifiesTime now t = false := by
    simp [qualifiesTime, triggerOf, hs]
    omega
  simp [fireCond, hq]

theorem fireCond_false_of_completed (t : Task) (now : Int)
    (hc : t.completed = true) : fireCond now t = false := by
  simp [fireCond, hc]

theorem countP_filter_fire_single (now : Int) (ts : List Task) (t : Task)
    (hmem : t ∈ ts) (hnd : (ts.map Task.id).Nodup) (hf : fireCond now t = true) :
    (ts.filter (fireCond now)).countP (fun u => u.id == t.id) = 1 := by
  induction ts with
  | nil => cases hmem
  | cons v rest ih =>
    have hnd' : (rest.map Task.id).Nodup := (List.nodup_cons.mp (by simpa using hnd)).2
    have hvni : v.id ∉ rest.map Task.id := (List.nodup_cons.mp (by simpa using hnd)).1
    rcases List.mem_cons.mp hmem with hvt | hmem'
    · subst hvt
      rw [List.filter_cons, if_pos hf, List.countP_cons, if_pos (beq_iff_eq.mpr rfl)]
      have hz : (rest.filter (fireCond now)).countP (fun u => u.id == t.id) = 0 := by
        rw [List.countP_eq_zero]
        intro u hu hpu
        have hums := List.mem_of_mem_filter hu
        have : u.id = t.id := beq_iff_eq.mp hpu
        exact hvni (this ▸ List.mem_map_of_mem Task.id hums)
      omega
    · have hne : v.id ≠ t.id := by
        intro he
        exact hvni (he ▸ List.mem_map_of_mem Task.id hmem')
      rw [List.filter_cons]
      by_cases hv : fireCond now v = true
      · rw [if_pos hv, List.countP_cons, if_neg (by simp [beq_eq_false_iff_ne.mpr hne])]
        rw [ih hmem' hnd']
      · rw [if_neg hv]
        exact ih hmem' hnd'

theorem tick_countP_unchanged (now : Int) (st : EngineState) (x : String)
    (h : ∀ u ∈ st.tasks, u.id = x → fireCond now u = false) :
    (tick now st).alerts.countP (fun a => a.taskId == x)
      = st.alerts.countP (fun a => a.taskId == x) := by
  rw [tick_alerts]
  apply emitAll_countP_not_mem
  intro u hu hux
  have hmem := List.mem_of_mem_filter hu
  have hfc := List.of_mem_filter hu
  rw [h u hmem hux] at hfc
  exact absurd hfc (by simp)

theorem tick_countP_one (now : Int) (st : EngineState) (t : Task)
    (hmem : t ∈ st.tasks) (hnd : (st.tasks.map Task.id).Nodup)
    (hf : fireCond now t = true)
    (hzero : st.alerts.countP (fun a => a.taskId == t.id) = 0) :
    (tick now st).alerts.countP (fun a => a.taskId == t.id) = 1 := by
  rw [tick_alerts]
  exact emitAll_countP_single _ _ _ _ hzero
    (countP_filter_fire_single now st.tasks t hmem hnd hf)

theorem tick_notified_of_fire (now : Int) (st : EngineState) (t : Task)
    (hmem : t ∈ st.tasks) (hnd : (st.tasks.map Task.id).Nodup)
    (hf : fireCond now t = true) :
    ∀ u ∈ (tick now st).tasks, u.id = t.id → u.notified = true := by
  intro u hu hid
  have hu' : u ∈ st.tasks.map (fireMap now) := (tick_tasks_perm now st).mem_iff.mp hu
  rcases List.mem_map.mp hu' with ⟨v, hv, rfl⟩
  have hvid : v.id = t.id := by rw [← fireMap_id now v]; exact hid
  have hvt : v = t := List.inj_on_of_nodup_map hnd hv hmem hvid
  subst hvt
  have hsplit : (v.completed || v.notified) = false ∧ qualifiesTime now v = true := by
    unfold fireCond at hf
    constructor
    · cases hor : (v.completed || v.notified) with
      | false => rfl
      | true => rw [hor] at hf; simp at hf
    · cases hq : qualifiesTime now v with
      | false => rw [hq] at hf; simp at hf
      | true => rfl
  simp [fireMap, hsplit.1, hsplit.2]

theorem tick_mem_self (now : Int) (st : EngineState) (t : Task)
    (hmem : t ∈ st.tasks) (h : fireCond now t = false) :
    t ∈ (tick now st).tasks := by
  apply (tick_tasks_perm now st).mem_iff.mpr
  rw [← fireMap_eq_self now t h]
  exact List.mem_map_of_mem _ hmem

/-! ### Sorting lemmas

The JS comparator is consistent exactly on tasks whose start instant is a
valid date, so the ordering facts are proved for lists of such tasks. -/

/-- Every task in the list has a valid (non-NaN) start instant. -/
def validKeys (l : List Task) : Prop := ∀ t ∈ l, (taskKey t).isSome = true

instance (l : List Task) : Decidable (validKeys l) :=
  inferInstanceAs (Decidable (∀ t ∈ l, (taskKey t).isSome = true))

/-- The key-class membership predicate used to state sort stability. -/
def pk (k : Int) (t : Task) : Bool := taskKey t == some k

theorem taskLE_iff_of_keys {a b : Task} {x y : Int}
    (ha : taskKey a = some x) (hb : taskKey b = some y) : taskLE a b ↔ x ≤ y := by
  simp [taskLE, taskBle, ha, hb]

theorem taskLE_of_not_taskLE {a b : Task}
    (ha : (taskKey a).isSome = true) (hb : (taskKey b).isSome = true)
    (h : ¬ taskLE a b) : taskLE b a := by
  rcases Option.isSome_iff_exists.mp ha with ⟨x, hx⟩
  rcases Option.isSome_iff_exists.mp hb with ⟨y, hy⟩
  rw [taskLE_iff_of_keys hx hy] at h
  rw [taskLE_iff_of_keys hy hx]
  omega

theorem taskLE_trans_valid {a b c : Task}
    (ha : (taskKey a).isSome = true) (hb : (taskKey b).isSome = true)
    (hc : (taskKey c).isSome = true) (hab : taskLE a b) (hbc : taskLE b c) :
    taskLE a c := by
  rcases Option.isSome_iff_exists.mp ha with ⟨x, hx⟩
  rcases Option.isSome_iff_exists.mp hb with ⟨y, hy⟩
  rcases Option.isSome_iff_exists.mp hc with ⟨z, hz⟩
  rw [taskLE_iff_of_keys hx hy] at hab
  rw [taskLE_iff_of_keys hy hz] at hbc
  rw [taskLE_iff_of_keys hx hz]
  omega

theorem pairwise_orderedInsert (t : Task) (l : List Task)
    (hv : validKeys (t :: l)) (hs : l.Pairwise taskLE) :
    (List.orderedInsert taskLE t l).Pairwise taskLE := by
  induction l with
  | nil => simp
  | cons b rest ih =>
    have hvt : (taskKey t).isSome = true := hv t (by simp)
    have hvb : (taskKey b).isSome = true := hv b (by simp)
    rcases List.pairwise_cons.mp hs with ⟨hble, hrest⟩
    rw [List.orderedInsert]
    by_cases h : taskLE t b
    · rw [if_pos h]
      refine List.pairwise_cons.mpr ⟨?_, hs⟩
      intro u hu
      rcases List.mem_cons.mp hu with rfl | hu'
      · exact h
      · exact taskLE_trans_valid hvt hvb (hv u (by simp [hu'])) h (hble u hu')
    · rw [if_neg h]
      refine List.pairwise_cons.mpr ⟨?_, ?_⟩
      · intro u hu
        rcases (List.mem_orderedInsert taskLE).mp hu with rfl | hu'
        · exact taskLE_of_not_taskLE hvt hvb h
        · exact hble u hu'
      · exact ih (fun u hu => by
          rcases List.mem_cons.mp hu with rfl | hu'
          · exact hvt
          · exact hv u (by simp [hu'])) hrest

theorem sortTasks_perm (l : List Task) : List.Perm (sortTasks l) l :=
  List.perm_insertionSort _ l

theorem validKeys_sortTasks {l : List Task} (hv : validKeys l) :
    validKeys (sortTasks l) := fun t ht => hv t ((sortTasks_perm l).mem_iff.mp ht)

theorem sortTasks_pairwise (l : List Task) (hv : validKeys l) :
    (sortTasks l).Pairwise taskLE := by
  induction l with
  | nil => simp [sortTasks, List.insertionSort]
  | cons t rest ih =>
    have hv' : validKeys rest := fun u hu => hv u (by simp [hu])
    rw [sortTasks, List.insertionSort]
    exact pairwise_orderedInsert t _
      (fun u hu => by
        rcases List.mem_cons.mp hu with rfl | hu'
        · exact hv u (by simp)
        · exact hv' u ((sortTasks_perm rest).mem_iff.mp hu'))
      (ih hv')

theorem filter_orderedInsert (t : Task) (l : List Task) (k : Int)
    (hv : validKeys (t :: l)) (hs : l.Pairwise taskLE) :
    (List.orderedInsert taskLE t l).filter (pk k)
      = if pk k t then t :: l.filter (pk k) else l.filter (pk k) := by
  induction l with
  | nil =>
    rw [List.orderedInsert_nil, List.filter_cons, List.filter_nil]
  | cons b rest ih =>
    have hvt : (taskKey t).isSome = true := hv t (by simp)
    have hvb : (taskKey b).isSome = true := hv b (by simp)
    rcases Option.isSome_iff_exists.mp hvt with ⟨x, hx⟩
    rcases Option.isSome_iff_exists.mp hvb with ⟨y, hy⟩
    rcases List.pairwise_cons.mp hs with ⟨_, hrest⟩
    rw [List.orderedInsert]
    by_cases h : taskLE t b
    · rw [if_pos h, List.filter_cons]
    · rw [if_neg h]
      have hyx : y < x := by
        rw [taskLE_iff_of_keys hx hy] at h
        omega
      have ihr := ih (fun u hu => by
        rcases List.mem_cons.mp hu with rfl | hu'
        · exact hvt
        · exact hv u (by simp [hu'])) hrest
      rw [List.filter_cons, List.filter_cons (x := b), ihr]
      by_cases hk : pk k t = true
      · have hkx : x = k := by
          have := hk
          simp [pk, hx] at this
          omega
        have hbk : pk k b = false := by
          simp [pk, hy]
          omega
        rw [hk, if_pos rfl, hbk]
        simp
      · have hkf : pk k t = false := by revert hk; cases pk k t <;> simp
        rw [hkf]
        simp

theorem sortTasks_filter (l : List Task) (k : Int) (hv : validKeys l) :
    (sortTasks l).filter (pk k) = l.filter (pk k) := by
  induction l with
  | nil => rfl
  | cons t rest ih =>
    have hv' : validKeys rest := fun u hu => hv u (by simp [hu])
    rw [sortTasks, List.insertionSort]
    have hvti : validKeys (t :: List.insertionSort taskLE rest) := fun u hu => by
      rcases List.mem_cons.mp hu with rfl | hu'
      · exact hv u (by simp)
      · exact hv' u ((sortTasks_perm rest).mem_iff.mp hu')
    rw [filter_orderedInsert t _ k hvti (sortTasks_pairwise rest hv'),
      show List.insertionSort taskLE rest = sortTasks rest from rfl, ih hv',
      List.filter_cons]

theorem sortTasks_eq_self (l : List Task) (h : l.Pairwise taskLE) : sortTasks l = l :=
  List.Sorted.insertionSort_eq h

/-! ### Update helper lemmas -/

theorem applyUpdate_notified_none (t : Task) (u : TaskUpdate)
    (ht : u.time = none) (hd : u.date = none) :
    (applyUpdate t u).notified = t.notified := by
  simp [applyUpdate, truthyStr, ht, hd]

theorem updMap_preserves_id (tid : String) (u : TaskUpdate) (t : Task) :
    (updMap tid u t).id = t.id := by
  unfold updMap
  split <;> rfl

theorem handleTaskUpdate_preserves_notified (tid : String) (u : TaskUpdate)
    (tasks : List Task) (ht : u.time = none) (hd : u.date = none) :
    ∀ t ∈ tasks, ∃ w ∈ handleTaskUpdate tid u tasks,
      w.id = t.id ∧ w.notified = t.notified := by
  intro t htm
  refine ⟨updMap tid u t, ?_, updMap_preserves_id tid u t, ?_⟩
  · rw [handleTaskUpdate, (sortTasks_perm _).mem_iff]
    exact List.mem_map_of_mem _ htm
  · unfold updMap
    split
    · exact applyUpdate_notified_none t u ht hd
    · rfl

theorem handleTaskUpdate_rearm (tid : String) (u : TaskUpdate) (tasks : List Task)
    (htr : (truthyStr u.time || truthyStr u.date) = true) :
    ∀ w ∈ handleTaskUpdate tid u tasks, w.id = tid → w.notified = false := by
  intro w hw hid
  rw [handleTaskUpdate, (sortTasks_perm _).mem_iff] at hw
  rcases List.mem_map.mp hw with ⟨v, _, rfl⟩
  by_cases hb : (v.id == tid) = true
  · simp [updMap, hb, applyUpdate, htr]
  · rw [updMap_preserves_id] at hid
    exact absurd (beq_iff_eq.mpr hid) hb

theorem map_eq_self_of_skip {α : Type} (l : List α) (g : α → α)
    (h : ∀ t ∈ l, g t = t) : l.map g = l := by
  induction l with
  | nil => rfl
  | cons t rest ih => simp [h t (by simp), ih (fun u hu => h u (by simp [hu]))]

/-! ## Claims -/

/-- C7: `bulkReplaceForDate(d, newTasks)` yields exactly the prior tasks whose
date differs from `d` plus `newTasks`; same-date tasks are removed, other
tasks are carried over unchanged, and `resetTemplateForDay` is this replace
applied to the instantiated template. -/
theorem c7_bulk_replace_destructive (prev newTasks : List Task) (d : String) :
    List.Perm (bulkReplaceForDate d newTasks prev)
      (prev.filter (fun t => !(t.date == d)) ++ newTasks)
    ∧ (∀ t : Task, t ∈ bulkReplaceForDate d newTasks prev ↔
        ((t ∈ prev ∧ t.date ≠ d) ∨ t ∈ newTasks))
    ∧ (∀ ids : Nat → String,
        resetTemplateForDay d ids prev = bulkReplaceForDate d (blueprintFor d ids) prev) := by
  refine ⟨sortTasks_perm _, ?_, fun _ => rfl⟩
  intro t
  rw [bulkReplaceForDate, (sortTasks_perm _).mem_iff]
  simp [List.mem_filter, List.mem_append]

/-- C4: a completed task is never evaluated by the tick: it survives the tick
verbatim, no alert with its id is emitted, and its `notified` flag is
untouched, even if its trigger instant has passed with `notified = false`. -/
theorem c4_completed_never_fires (st : EngineState) (t : Task) (now : Int)
    (hmem : t ∈ st.tasks) (hc : t.completed = true)
    (hnd : (st.tasks.map Task.id).Nodup) :
    t ∈ (tick now st).tasks
    ∧ (tick now st).alerts.countP (fun a => a.taskId == t.id)
        = st.alerts.countP (fun a => a.taskId == t.id)
    ∧ (∀ u ∈ (tick now st).tasks, u.id = t.id → u.notified = t.notified) := by
  have hf : fireCond now t = false := fireCond_false_of_completed t now hc
  refine ⟨tick_mem_self now st t hmem hf, ?_, ?_⟩
  · apply tick_countP_unchanged
    intro u hu hid
    have he : u = t := List.inj_on_of_nodup_map hnd hu hmem hid
    subst he
    exact fireCond_false_of_completed u now hc
  · intro w hw hid
    have hw' : w ∈ st.tasks.map (fireMap now) := (tick_tasks_perm now st).mem_iff.mp hw
    rcases List.mem_map.mp hw' with ⟨v, hv, rfl⟩
    have hvid : v.id = t.id := by rw [← fireMap_id now v]; exact hid
    have hvt : v = t := List.inj_on_of_nodup_map hnd hv hmem hvid
    rw [hvt, fireMap_eq_self now t hf]

def taskC4 : Task :=
  ⟨"c4", "Lunch", "", "2024-01-01", "09:00", 10, true, false⟩

def stC4 : EngineState := ⟨[taskC4], [], 0⟩

theorem c4_witness :
    (taskC4 ∈ stC4.tasks ∧ taskC4.completed = true ∧ (stC4.tasks.map Task.id).Nodup)
    ∧ (taskC4 ∈ (tick 2000000000000 stC4).tasks
      ∧ (tick 2000000000000 stC4).alerts.countP (fun a => a.taskId == taskC4.id)
          = stC4.alerts.countP (fun a => a.taskId == taskC4.id)
      ∧ (∀ u ∈ (tick 2000000000000 stC4).tasks,
          u.id = taskC4.id → u.notified = taskC4.notified)) :=
  ⟨⟨by decide, by decide, by decide⟩,
    c4_completed_never_fires stC4 taskC4 2000000000000 (by decide) (by decide) (by decide)⟩

/-- C5: the alert channel holds at most one live alert per `taskId`: `emit`
only inserts when no alert with the task's id is live, and the at-most-one
invariant is preserved by `emit`, by `acknowledge`, and by a whole tick. -/
theorem c5_at_most_one_alert (al : List Alert) (t : Task) (fresh aid : Nat)
    (st : EngineState) (now : Int) (h : AtMostOne al) :
    ((∃ a ∈ al, a.taskId = t.id) → emitAlert t fresh al = al)
    ∧ AtMostOne (emitAlert t fresh al)
    ∧ AtMostOne (acknowledgeAlert aid al)
    ∧ (AtMostOne st.alerts → AtMostOne (tick now st).alerts) := by
  refine ⟨?_, emitAlert_atMostOne t fresh al h, acknowledge_atMostOne aid al h, ?_⟩
  · rintro ⟨a, ha, hta⟩
    unfold emitAlert
    have hany : (al.any fun b => b.taskId == t.id) = true :=
      List.any_eq_true.mpr ⟨a, ha, beq_iff_eq.mpr hta⟩
    rw [if_pos hany]
  · intro hst
    rw [tick_alerts]
    exact emitAll_atMostOne _ _ _ hst

def alertC5 : Alert := ⟨0, "t1", "msg", none⟩

theorem c5_witness :
    AtMostOne [alertC5]
    ∧ (((∃ a ∈ [alertC5], a.taskId = "t1") →
          emitAlert ⟨"t1", "A", "", "2024-01-01", "09:00", 10, false, false⟩ 1 [alertC5]
            = [alertC5])
      ∧ AtMostOne (emitAlert ⟨"t1", "A", "", "2024-01-01", "09:00", 10, false, false⟩ 1 [alertC5])
      ∧ AtMostOne (acknowledgeAlert 0 [alertC5])
      ∧ (AtMostOne (⟨[], [alertC5], 1⟩ : EngineState).alerts →
          AtMostOne (tick 0 ⟨[], [alertC5], 1⟩).alerts)) :=
  have hone : AtMostOne [alertC5] := by
    intro x
    rw [List.countP_cons, List.countP_nil]
    split <;> omega
  ⟨hone, c5_at_most_one_alert [alertC5] ⟨"t1", "A", "", "2024-01-01", "09:00", 10, false, false⟩
    1 0 ⟨[], [alertC5], 1⟩ 0 hone⟩

/-- C10: when an update carries neither `date` nor `time`, the task's
`notified` flag is preserved even if the payload explicitly carries a
`notified` value — the payload's `notified` is discarded outright; in
particular a `remindBefore`-only update (even one passing `notified=false`)
never resets the flag. -/
theorem c10_payload_notified_discarded (tid : String) (u : TaskUpdate)
    (tasks : List Task) (ht : u.time = none) (hd : u.date = none) :
    (∀ t : Task, (applyUpdate t u).notified = t.notified)
    ∧ ∀ t ∈ tasks, ∃ w ∈ handleTaskUpdate tid u tasks,
        w.id = t.id ∧ w.notified = t.notified :=
  ⟨fun t => applyUpdate_notified_none t u ht hd,
   handleTaskUpdate_preserves_notified tid u tasks ht hd⟩

def taskC10 : Task :=
  ⟨"t1", "A", "", "2024-01-01", "09:00", 10, false, true⟩

def updC10 : TaskUpdate := { remindBefore := some 5, notified := some false }

theorem c10_witness :
    (updC10.time = none ∧ updC10.date = none
      ∧ updC10.notified = some false ∧ updC10.remindBefore = some 5
      ∧ taskC10.notified = true)
    ∧ ((∀ t : Task, (applyUpdate t updC10).notified = t.notified)
      ∧ ∀ t ∈ [taskC10], ∃ w ∈ handleTaskUpdate "t1" updC10 [taskC10],
          w.id = t.id ∧ w.notified = t.notified) :=
  ⟨⟨rfl, rfl, rfl, rfl, rfl⟩,
   c10_payload_notified_discarded "t1" updC10 [taskC10] rfl rfl⟩

/-- C3 counterexample: an update whose field set *does* contain `time` — set
to the empty string, as clearing the time input produces — leaves a
previously notified task with `notified = true`, because `updates.time ||
updates.date` is JS truthiness and `""` is falsy.  The claim demands
`notified = false` after every update containing `date` or `time`. -/
theorem c3_counterexample :
    ({ time := some "" } : TaskUpdate).time = some ""
    ∧ ¬ (∀ w ∈ handleTaskUpdate "t1" { time := some "" } [taskC10], w.notified = false) := by
  constructor
  · rfl
  · decide

/-- C3 (amended): an update whose `date` or `time` field is present *with a
truthy (non-empty) value* forces `notified = false` on the targeted task;
an update carrying neither `date` nor `time` leaves `notified` untouched
(in particular a description-only edit).  A `date`/`time` field present but
equal to `""` is falsy and does not re-arm. -/
theorem c3_rearm_on_edit (tid : String) (u : TaskUpdate) (tasks : List Task) :
    ((truthyStr u.time || truthyStr u.date) = true →
      ∀ w ∈ handleTaskUpdate tid u tasks, w.id = tid → w.notified = false)
    ∧ (u.time = none → u.date = none →
      ∀ t ∈ tasks, ∃ w ∈ handleTaskUpdate tid u tasks,
        w.id = t.id ∧ w.notified = t.notified) :=
  ⟨fun htr => handleTaskUpdate_rearm tid u tasks htr,
   fun ht hd => handleTaskUpdate_preserves_notified tid u tasks ht hd⟩

def updC3time : TaskUpdate := { time := some "10:00" }

def updC3desc : TaskUpdate := { description := some "new notes" }

theorem c3_witness :
    ((truthyStr updC3time.time || truthyStr updC3time.date) = true
      ∧ updC3desc.time = none ∧ updC3desc.date = none)
    ∧ (∀ w ∈ handleTaskUpdate "t1" updC3time [taskC10], w.id = "t1" → w.notified = false)
    ∧ (∀ t ∈ [taskC10], ∃ w ∈ handleTaskUpdate "t1" updC3desc [taskC10],
        w.id = t.id ∧ w.notified = t.notified) :=
  ⟨⟨by decide, rfl, rfl⟩,
   (c3_rearm_on_edit "t1" updC3time [taskC10]).1 (by decide),
   (c3_rearm_on_edit "t1" updC3desc [taskC10]).2 rfl rfl⟩

/-- C8 counterexample: a time string with non-numeric parts does not default
to `00:00` — `Number("ab")` is NaN and the constructed date is Invalid
(`none`), not the midnight instant the claim's defaulting promises. -/
theorem c8_counterexample :
    combineDateTime "2024-01-01" "ab:cd" = none
    ∧ combineDateTime "2024-01-01" "ab:cd" ≠ combineDateTime "2024-01-01" "00:00" := by
  constructor
  · rfl
  · decide

/-- C8 (amended): `combine` never raises — it is total — and *missing*
parts default: an absent time defaults to `00:00`, an hour-only time gets
`:00`, and a year-only date defaults to month 1, day 1.  A present but
non-numeric part, however, yields an invalid instant (NaN), not a default. -/
theorem c8_defaulting (d t : String) :
    combineDateTime d "" = combineDateTime d "00:00"
    ∧ combineDateTime d "7" = combineDateTime d "7:00"
    ∧ combineDateTime "2024" t = combineDateTime "2024-01-01" t := by
  refine ⟨?_, ?_, ?_⟩
  · show mkInstant (parseDateYMD d) (parseTimeHM "")
      = mkInstant (parseDateYMD d) (parseTimeHM "00:00")
    rw [show parseTimeHM "" = parseTimeHM "00:00" from by decide]
  · show mkInstant (parseDateYMD d) (parseTimeHM "7")
      = mkInstant (parseDateYMD d) (parseTimeHM "7:00")
    rw [show parseTimeHM "7" = parseTimeHM "7:00" from by decide]
  · show mkInstant (parseDateYMD "2024") (parseTimeHM t)
      = mkInstant (parseDateYMD "2024-01-01") (parseTimeHM t)
    rw [show parseDateYMD "2024" = parseDateYMD "2024-01-01" from by decide]

def taskC9a : Task := ⟨"a", "A", "", "2024-01-02", "09:00", 5, false, false⟩

def taskC9b : Task := ⟨"b", "B", "", "2024-01-01", "09:00", 5, false, false⟩

/-- C9 counterexample: on a collection that is not in canonical order, an
update with an unknown id is *not* a no-op — the handler re-sorts
unconditionally, so the order changes even though no task matches. -/
theorem c9_counterexample :
    (∀ t ∈ [taskC9a, taskC9b], t.id ≠ "z")
    ∧ handleTaskUpdate "z" {} [taskC9a, taskC9b] ≠ [taskC9a, taskC9b] := by
  constructor
  · decide
  · decide

/-- C9 (amended): on a collection in the store's canonical sorted order —
which every reachable store state is — `update`, `remove` and
`setCompleted` with an id not present leave the collection exactly
unchanged (and, being total functions, raise no error). -/
theorem c9_unknown_id_noop (tasks : List Task) (tid : String) (u : TaskUpdate)
    (c : Bool) (habs : ∀ t ∈ tasks, t.id ≠ tid) (hsorted : tasks.Pairwise taskLE) :
    handleTaskUpdate tid u tasks = tasks
    ∧ handleTaskRemoval tid tasks = tasks
    ∧ handleTaskCompletion tid c tasks = tasks := by
  have hbeq : ∀ t ∈ tasks, (t.id == tid) = false :=
    fun t ht => beq_eq_false_iff_ne.mpr (habs t ht)
  refine ⟨?_, ?_, ?_⟩
  · rw [handleTaskUpdate,
      map_eq_self_of_skip tasks _ (fun t ht => by
        unfold updMap
        rw [if_neg (by simp [hbeq t ht])]),
      sortTasks_eq_self tasks hsorted]
  · rw [handleTaskRemoval, List.filter_eq_self.mpr (fun t ht => by simp [hbeq t ht])]
  · rw [handleTaskCompletion,
      map_eq_self_of_skip tasks _ (fun t ht => by
        unfold compMap
        rw [if_neg (by simp [hbeq t ht])]),
      sortTasks_eq_self tasks hsorted]

theorem fireCond_false_of_notified (t : Task) (now : Int)
    (hn : t.notified = true) : fireCond now t = false := by
  simp [fireCond, hn]

def taskC2 : Task := ⟨"t2", "Focus", "", "2024-01-01", "09:00", 10, false, false⟩

def staleC2 : Alert := ⟨0, "t2", "stale", some 1704099600000⟩

def stC2stale : EngineState := ⟨[taskC2], [staleC2], 1⟩

/-- C2 counterexample: a pending task past `S - L` does not get an alert
emitted on the tick when a live (unacknowledged, stale) alert with its
`taskId` is still in the channel — the dedup in `triggerNotification`
suppresses the insertion, so the claim's "emits an Alert on the first tick
where now ≥ S - L" fails in that state. -/
theorem c2_counterexample :
    taskC2.completed = false ∧ taskC2.notified = false
    ∧ taskKey taskC2 = some 1704099600000
    ∧ ((1704099600000 : Int) - (taskC2.remindBefore : Int) * 60000 ≤ 2000000000000)
    ∧ (tick 2000000000000 stC2stale).alerts = stC2stale.alerts :=
  ⟨rfl, rfl, by decide, by decide, by decide⟩

/-- C2 (amended): for a pending task with a valid start instant `S` and lead
`L`, a tick at `now < S - L·60000` emits nothing for the task and leaves it
untouched; a tick at `now ≥ S - L·60000` emits exactly one alert for it,
provided no live alert with its `taskId` is already in the channel (if one
is, the dedup suppresses the insertion). -/
theorem c2_trigger_timing (st : EngineState) (t : Task) (now s : Int)
    (hmem : t ∈ st.tasks) (hc : t.completed = false) (hn : t.notified = false)
    (hkey : taskKey t = some s) (hnd : (st.tasks.map Task.id).Nodup) :
    (now < s - (t.remindBefore : Int) * 60000 →
      t ∈ (tick now st).tasks
      ∧ (tick now st).alerts.countP (fun a => a.taskId == t.id)
          = st.alerts.countP (fun a => a.taskId == t.id))
    ∧ (s - (t.remindBefore : Int) * 60000 ≤ now →
      st.alerts.countP (fun a => a.taskId == t.id) = 0 →
      (tick now st).alerts.countP (fun a => a.taskId == t.id) = 1) := by
  constructor
  · intro hlt
    have hf : fireCond now t = false := fireCond_false_of_early t now s hkey hlt
    refine ⟨tick_mem_self now st t hmem hf, ?_⟩
    apply tick_countP_unchanged
    intro u hu hid
    have he : u = t := List.inj_on_of_nodup_map hnd hu hmem hid
    rw [he]
    exact hf
  · intro hle hzero
    exact tick_countP_one now st t hmem hnd
      (fireCond_of_pending t now s hc hn hkey hle) hzero

def taskW2 : Task := ⟨"w2", "Focus", "", "2024-01-01", "09:00", 10, false, false⟩

def stW2 : EngineState := ⟨[taskW2], [], 0⟩

theorem c2_witness :
    (taskW2 ∈ stW2.tasks ∧ taskW2.completed = false ∧ taskW2.notified = false
      ∧ taskKey taskW2 = some 1704099600000 ∧ (stW2.tasks.map Task.id).Nodup
      ∧ ((0 : Int) < 1704099600000 - (taskW2.remindBefore : Int) * 60000)
      ∧ (1704099600000 - (taskW2.remindBefore : Int) * 60000 ≤ (2000000000000 : Int))
      ∧ stW2.alerts.countP (fun a => a.taskId == taskW2.id) = 0)
    ∧ (taskW2 ∈ (tick 0 stW2).tasks
      ∧ (tick 0 stW2).alerts.countP (fun a => a.taskId == taskW2.id)
          = stW2.alerts.countP (fun a => a.taskId == taskW2.id))
    ∧ (tick 2000000000000 stW2).alerts.countP (fun a => a.taskId == taskW2.id) = 1 :=
  ⟨⟨by decide, rfl, rfl, by decide, by decide, by decide, by decide, rfl⟩,
   (c2_trigger_timing stW2 taskW2 0 1704099600000
      (by decide) rfl rfl (by decide) (by decide)).1 (by decide),
   (c2_trigger_timing stW2 taskW2 2000000000000 1704099600000
      (by decide) rfl rfl (by decide) (by decide)).2 (by decide) rfl⟩

def taskC1 : Task := ⟨"t3", "Check-in", "", "2024-01-01", "15:00", 10, false, false⟩

def staleC1 : Alert := ⟨0, "t3", "stale", some 1704121200000⟩

def stC1stale : EngineState := ⟨[taskC1], [staleC1], 1⟩

/-- C1 counterexample: a pending task whose trigger instant has passed, with
a live stale alert for its `taskId` still unacknowledged in the channel:
the tick emits *zero* new alerts for it (the per-`taskId` count is
unchanged), falsifying "emits exactly one Alert whose taskId equals the
task's id". -/
theorem c1_counterexample :
    taskC1.completed = false ∧ taskC1.notified = false
    ∧ triggerOf taskC1 = some 1704120600000
    ∧ ((1704120600000 : Int) ≤ 2000000000000)
    ∧ (tick 2000000000000 stC1stale).alerts.countP (fun a => a.taskId == taskC1.id)
        = stC1stale.alerts.countP (fun a => a.taskId == taskC1.id) :=
  ⟨rfl, rfl, by decide, by decide, by decide⟩

/-- C1 (amended): for a pending task whose trigger instant has passed and
for which *no live alert is in the channel*, one tick emits exactly one
alert with the task's id and flips its `notified` flag to `true`; a second
consecutive tick (at any instant, with no edits in between) emits zero new
alerts for that task — the per-`taskId` alert count is still exactly one. -/
theorem c1_exactly_once (st : EngineState) (t : Task) (now1 now2 tr : Int)
    (hmem : t ∈ st.tasks) (hc : t.completed = false) (hn : t.notified = false)
    (htr : triggerOf t = some tr) (hpast : tr ≤ now1)
    (hzero : st.alerts.countP (fun a => a.taskId == t.id) = 0)
    (hnd : (st.tasks.map Task.id).Nodup) :
    (tick now1 st).alerts.countP (fun a => a.taskId == t.id) = 1
    ∧ (∀ u ∈ (tick now1 st).tasks, u.id = t.id → u.notified = true)
    ∧ (tick now2 (tick now1 st)).alerts.countP (fun a => a.taskId == t.id) = 1 := by
  rcases Option.map_eq_some'.mp htr with ⟨s, hs, hsf⟩
  have hf : fireCond now1 t = true :=
    fireCond_of_pending t now1 s hc hn hs (by omega)
  have h1 : (tick now1 st).alerts.countP (fun a => a.taskId == t.id) = 1 :=
    tick_countP_one now1 st t hmem hnd hf hzero
  have h2 : ∀ u ∈ (tick now1 st).tasks, u.id = t.id → u.notified = true :=
    tick_notified_of_fire now1 st t hmem hnd hf
  refine ⟨h1, h2, ?_⟩
  rw [tick_countP_unchanged now2 (tick now1 st) t.id
    (fun u hu hid => fireCond_false_of_notified u now2 (h2 u hu hid))]
  exact h1

def taskW1 : Task := ⟨"w1", "Stretch", "", "2024-01-01", "07:00", 10, false, false⟩

def stW1 : EngineState := ⟨[taskW1], [], 0⟩

theorem c1_witness :
    (taskW1 ∈ stW1.tasks ∧ taskW1.completed = false ∧ taskW1.notified = false
      ∧ triggerOf taskW1 = some 1704091800000
      ∧ ((1704091800000 : Int) ≤ 1704100000000)
      ∧ stW1.alerts.countP (fun a => a.taskId == taskW1.id) = 0
      ∧ (stW1.tasks.map Task.id).Nodup)
    ∧ ((tick 1704100000000 stW1).alerts.countP (fun a => a.taskId == taskW1.id) = 1
      ∧ (∀ u ∈ (tick 1704100000000 stW1).tasks, u.id = taskW1.id → u.notified = true)
      ∧ (tick 1704200000000 (tick 1704100000000 stW1)).alerts.countP
          (fun a => a.taskId == taskW1.id) = 1) :=
  ⟨⟨by decide, rfl, rfl, by decide, by decide, rfl, by decide⟩,
   c1_exactly_once stW1 taskW1 1704100000000 1704200000000 1704091800000
     (by decide) rfl rfl (by decide) (by decide) rfl (by decide)⟩

theorem taskKey_compMap (tid : String) (c : Bool) (t : Task) :
    taskKey (compMap tid c t) = taskKey t := by
  unfold compMap
  split <;> rfl

/-- C6: after each Task Store mutation the collection is sorted ascending by
`combine(date,time)` (stated for tasks with valid start instants, where the
JS comparator is consistent), and tasks with identical instants keep their
pre-sort relative order: each sorting mutation agrees with its pre-sort
list on every instant class, and removal — a plain filter — preserves
sortedness and the relative order of all survivors. -/
theorem c6_sorted_after_mutations (prev : List Task) (fresh : String) (f : FormState)
    (tid d : String) (u : TaskUpdate) (c : Bool) (ids : Nat → String)
    (hv : validKeys prev) :
    (¬(f.title = "" ∨ f.date = "" ∨ f.time = "") →
      (taskKey (newTaskOfForm fresh f)).isSome = true →
      (handleFormSubmit fresh f prev).Pairwise taskLE
      ∧ ∀ k : Int, (handleFormSubmit fresh f prev).filter (pk k)
          = (prev ++ [newTaskOfForm fresh f]).filter (pk k))
    ∧ ((∀ t ∈ prev, (taskKey (updMap tid u t)).isSome = true) →
      (handleTaskUpdate tid u prev).Pairwise taskLE
      ∧ ∀ k : Int, (handleTaskUpdate tid u prev).filter (pk k)
          = (prev.map (updMap tid u)).filter (pk k))
    ∧ ((handleTaskCompletion tid c prev).Pairwise taskLE
      ∧ ∀ k : Int, (handleTaskCompletion tid c prev).filter (pk k)
          = (prev.map (compMap tid c)).filter (pk k))
    ∧ ((∀ t ∈ blueprintFor d ids, (taskKey t).isSome = true) →
      (resetTemplateForDay d ids prev).Pairwise taskLE
      ∧ ∀ k : Int, (resetTemplateForDay d ids prev).filter (pk k)
          = (prev.filter (fun t => !(t.date == d)) ++ blueprintFor d ids).filter (pk k))
    ∧ (prev.Pairwise taskLE → (handleTaskRemoval tid prev).Pairwise taskLE)
    ∧ List.Sublist (handleTaskRemoval tid prev) prev := by
  refine ⟨?_, ?_, ?_, ?_, ?_, List.filter_sublist prev⟩
  · intro hguard hnew
    have hva : validKeys (prev ++ [newTaskOfForm fresh f]) := by
      intro t ht
      rcases List.mem_append.mp ht with h1 | h2
      · exact hv t h1
      · rw [List.mem_singleton.mp h2]
        exact hnew
    rw [handleFormSubmit, if_neg hguard]
    exact ⟨sortTasks_pairwise _ hva, fun k => sortTasks_filter _ k hva⟩
  · intro hupd
    have hva : validKeys (prev.map (updMap tid u)) := by
      intro t ht
      rcases List.mem_map.mp ht with ⟨v, hvm, rfl⟩
      exact hupd v hvm
    exact ⟨sortTasks_pairwise _ hva, fun k => sortTasks_filter _ k hva⟩
  · have hva : validKeys (prev.map (compMap tid c)) := by
      intro t ht
      rcases List.mem_map.mp ht with ⟨v, hvm, rfl⟩
      rw [taskKey_compMap tid c v]
      exact hv v hvm
    exact ⟨sortTasks_pairwise _ hva, fun k => sortTasks_filter _ k hva⟩
  · intro hbp
    have hva : validKeys (prev.filter (fun t => !(t.date == d)) ++ blueprintFor d ids) := by
      intro t ht
      rcases List.mem_append.mp ht with h1 | h2
      · exact hv t (List.mem_of_mem_filter h1)
      · exact hbp t h2
    exact ⟨sortTasks_pairwise _ hva, fun k => sortTasks_filter _ k hva⟩
  · intro hsorted
    exact List.Pairwise.sublist (List.filter_sublist prev) hsorted

def fC6 : FormState := ⟨"New block", "", "2024-01-03", "08:00", 15⟩

def updC6 : TaskUpdate := { time := some "10:00" }

def idsC6 : Nat → String := fun _ => "tpl"

theorem c6_witness :
    validKeys [taskC9b, taskC9a]
    ∧ ((handleFormSubmit "n1" fC6 [taskC9b, taskC9a]).Pairwise taskLE
      ∧ ∀ k : Int, (handleFormSubmit "n1" fC6 [taskC9b, taskC9a]).filter (pk k)
          = ([taskC9b, taskC9a] ++ [newTaskOfForm "n1" fC6]).filter (pk k))
    ∧ ((handleTaskUpdate "a" updC6 [taskC9b, taskC9a]).Pairwise taskLE
      ∧ ∀ k : Int, (handleTaskUpdate "a" updC6 [taskC9b, taskC9a]).filter (pk k)
          = ([taskC9b, taskC9a].map (updMap "a" updC6)).filter (pk k))
    ∧ ((handleTaskCompletion "a" true [taskC9b, taskC9a]).Pairwise taskLE
      ∧ ∀ k : Int, (handleTaskCompletion "a" true [taskC9b, taskC9a]).filter (pk k)
          = ([taskC9b, taskC9a].map (compMap "a" true)).filter (pk k))
    ∧ ((resetTemplateForDay "2024-01-02" idsC6 [taskC9b, taskC9a]).Pairwise taskLE
      ∧ ∀ k : Int, (resetTemplateForDay "2024-01-02" idsC6 [taskC9b, taskC9a]).filter (pk k)
          = ([taskC9b, taskC9a].filter (fun t => !(t.date == "2024-01-02"))
              ++ blueprintFor "2024-01-02" idsC6).filter (pk k))
    ∧ (handleTaskRemoval "a" [taskC9b, taskC9a]).Pairwise taskLE
    ∧ List.Sublist (handleTaskRemoval "a" [taskC9b, taskC9a]) [taskC9b, taskC9a] :=
  have hv : validKeys [taskC9b, taskC9a] := by decide
  have hall := c6_sorted_after_mutations [taskC9b, taskC9a] "n1" fC6 "a" "2024-01-02"
    updC6 true idsC6 hv
  ⟨hv, hall.1 (by decide) (by decide), hall.2.1 (by decide), hall.2.2.1,
   hall.2.2.2.1 (by decide), hall.2.2.2.2.1 (by decide), hall.2.2.2.2.2⟩

theorem c9_witness :
    ((∀ t ∈ [taskC9b, taskC9a], t.id ≠ "z") ∧ [taskC9b, taskC9a].Pairwise taskLE)
    ∧ (handleTaskUpdate "z" {} [taskC9b, taskC9a] = [taskC9b, taskC9a]
      ∧ handleTaskRemoval "z" [taskC9b, taskC9a] = [taskC9b, taskC9a]
      ∧ handleTaskCompletion "z" true [taskC9b, taskC9a] = [taskC9b, taskC9a]) :=
  ⟨⟨by decide, by decide⟩,
   c9_unknown_id_noop [taskC9b, taskC9a] "z" {} true (by decide) (by decide)⟩

end DailyRhythm
